import Mathlib

/-!
Verification of the `todore` in-memory TODO list manager (`src/main.rs`).

The Rust program is shallowly embedded below: the data model (`Task`,
`TaskStatus`, `TaskList`), the mutation operations, the Plaintext and Json
formatters (serde_json's pretty printer is modelled character-for-character),
a model of `serde_json::from_str` (a JSON parser plus a deserializer matching
the derived `Deserialize` implementations), and the command-line parser
`Command::from_str`.  Rust `u32` values are embedded as `Nat`; the `u32`
range check performed by serde when deserializing `id` is kept explicit.
Methods that mutate `self` and return `Result` are embedded as functions
returning the `Except` result paired with the new state.
-/

deriving instance DecidableEq for Except

namespace Todore

/-- `TaskStatus` from `src/main.rs`: lifecycle state of a task. -/
inductive TaskStatus where
  | NotStarted
  | InProgress
  | Completed
deriving DecidableEq

/-- `Task` from `src/main.rs`: id (`u32`, embedded as `Nat`), description, status. -/
structure Task where
  id : Nat
  description : String
  status : TaskStatus
deriving DecidableEq

/-- `TaskList` from `src/main.rs`: an ordered `Vec` of tasks. -/
structure TaskList where
  tasks : List Task
deriving DecidableEq

/-- `Task::new`: a fresh task carries the given id and description and starts `NotStarted`. -/
def Task.new (id : Nat) (description : String) : Task :=
  { id := id, description := description, status := TaskStatus.NotStarted }

/-- `TaskList::new`: the empty list. -/
def TaskList.new : TaskList := { tasks := [] }

/-- `TaskList::add`: `self.tasks.push(task)`. -/
def TaskList.add (l : TaskList) (task : Task) : TaskList :=
  { tasks := l.tasks ++ [task] }

/-- `TaskList::remove`: `self.tasks.retain(|task| task.id != task_id)`. -/
def TaskList.remove (l : TaskList) (task_id : Nat) : TaskList :=
  { tasks := l.tasks.filter (fun task => task.id != task_id) }

/-- Helper embedding `self.tasks.iter_mut().find(|task| task.id == task_id)`
followed by overwriting the found task's status: returns `none` when no task
matches, otherwise the list with the first matching task's status replaced. -/
def updateFirstStatus : List Task → Nat → TaskStatus → Option (List Task)
  | [], _, _ => none
  | t :: ts, task_id, new_status =>
    if t.id = task_id then some ({ t with status := new_status } :: ts)
    else (updateFirstStatus ts task_id new_status).map (t :: ·)

/-- Helper embedding the same find-first pattern for `update_description`. -/
def updateFirstDescription : List Task → Nat → String → Option (List Task)
  | [], _, _ => none
  | t :: ts, task_id, new_description =>
    if t.id = task_id then some ({ t with description := new_description } :: ts)
    else (updateFirstDescription ts task_id new_description).map (t :: ·)

/-- `TaskList::update_status`: result paired with the post-call state. -/
def TaskList.update_status (l : TaskList) (task_id : Nat) (new_status : TaskStatus) :
    Except String Unit × TaskList :=
  match updateFirstStatus l.tasks task_id new_status with
  | some ts => (Except.ok (), { tasks := ts })
  | none => (Except.error ("Task with id " ++ Nat.repr task_id ++ " was not found"), l)

/-- `TaskList::update_description`: result paired with the post-call state. -/
def TaskList.update_description (l : TaskList) (task_id : Nat) (new_description : String) :
    Except String Unit × TaskList :=
  match updateFirstDescription l.tasks task_id new_description with
  | some ts => (Except.ok (), { tasks := ts })
  | none => (Except.error ("Task with id " ++ Nat.repr task_id ++ " was not found"), l)

/-- `impl fmt::Display for TaskStatus`: the display names. -/
def TaskStatus.display : TaskStatus → String
  | .NotStarted => "Not Started"
  | .InProgress => "In Progress"
  | .Completed => "Completed"

/-- `PlaintextFormatter::format`: one `"<id>: <description>\t<status>"` line per
task, joined with newline. -/
def PlaintextFormatter.format (l : TaskList) : String :=
  String.intercalate "\n"
    (l.tasks.map (fun task => Nat.repr task.id ++ ": " ++ task.description ++ "\t"
      ++ task.status.display))

/-! ## Json export: model of `serde_json::to_string_pretty` on the derived
`Serialize` instances (two-space indent, fields in declaration order,
statuses as their variant names, strings escaped as serde_json does). -/

/-- serde's serialization of a `TaskStatus` unit variant: its symbolic name. -/
def statusName : TaskStatus → String
  | .NotStarted => "NotStarted"
  | .InProgress => "InProgress"
  | .Completed => "Completed"

/-- Lowercase hex digit, as used by serde_json's `\u00xx` escapes. -/
def hexDigitChar (n : Nat) : Char :=
  if n < 10 then Char.ofNat (48 + n) else Char.ofNat (87 + n)

/-- serde_json's escaping of one character inside a JSON string literal:
`"` and `\` get a backslash, the five short control escapes are used for
backspace, tab, newline, form feed and carriage return, all other control
characters become `\u00xx` (lowercase hex), everything else is untouched. -/
def escapeChar (c : Char) : List Char :=
  if c = '"' then ['\\', '"']
  else if c = '\\' then ['\\', '\\']
  else if c = '\x08' then ['\\', 'b']
  else if c = '\x09' then ['\\', 't']
  else if c = '\x0a' then ['\\', 'n']
  else if c = '\x0c' then ['\\', 'f']
  else if c = '\x0d' then ['\\', 'r']
  else if c.toNat < 32 then
    ['\\', 'u', '0', '0', hexDigitChar (c.toNat / 16), hexDigitChar (c.toNat % 16)]
  else [c]

/-- serde_json's escaping of a whole string body. -/
def escapeString (s : String) : List Char :=
  (s.data.map escapeChar).flatten

/-- A JSON string literal: quote, escaped body, quote. -/
def strLit (s : String) : List Char :=
  '"' :: (escapeString s ++ ['"'])

/-- Fuel-driven decimal printer loop (most significant digit first). -/
def natToCharsAux : Nat → Nat → List Char → List Char
  | 0, _, acc => acc
  | fuel + 1, n, acc =>
    if n = 0 then acc
    else natToCharsAux fuel (n / 10) (Char.ofNat (48 + n % 10) :: acc)

/-- Decimal rendering of a `u32` value, as serde_json prints integers. -/
def natToChars (n : Nat) : List Char :=
  if n = 0 then ['0'] else natToCharsAux (n + 1) n []

/-- The pretty-printed JSON object for one `Task`, as placed at the array
element position (indent level 2) by `serde_json::to_string_pretty`. -/
def taskJsonChars (t : Task) : List Char :=
  "\x7b\n      \"id\": ".data ++ natToChars t.id
    ++ ",\n      \"description\": ".data ++ strLit t.description
    ++ ",\n      \"status\": ".data ++ strLit (statusName t.status)
    ++ "\n    \x7d".data

/-- The pretty-printed JSON array of tasks at indent level 1. -/
def tasksArrayChars : List Task → List Char
  | [] => ['[', ']']
  | t :: ts =>
    "[\n    ".data ++ taskJsonChars t
      ++ (ts.map (fun u => ",\n    ".data ++ taskJsonChars u)).flatten
      ++ "\n  ]".data

/-- The pretty-printed JSON for a whole `TaskList`. -/
def taskListJsonChars (l : TaskList) : List Char :=
  "\x7b\n  \"tasks\": ".data ++ tasksArrayChars l.tasks ++ "\n\x7d".data

/-- `JsonFormatter::format`: `serde_json::to_string_pretty(tasks)`. -/
def JsonFormatter.format (l : TaskList) : String :=
  String.mk (taskListJsonChars l)

/-- `TaskList::export_to_string`: delegates to the given formatter strategy. -/
def TaskList.export_to_string (l : TaskList) (formatter : TaskList → String) : String :=
  formatter l

/-! ## Json import: model of `serde_json::from_str::<TaskList>`.
A JSON syntax parser producing a `Json` value, followed by a deserializer
matching the derived `Deserialize` implementations (fields looked up by name,
`id` must fit in `u32`, statuses are the variant names).  The parser is
fuel-driven; `serde_from_str` supplies fuel from the input length, which is
ample for any output of the pretty printer (each parsing step past the first
consumes input). -/

/-- JSON values (numbers restricted to the unsigned integers that occur in
this schema). -/
inductive Json where
  | null
  | bool (b : Bool)
  | num (n : Nat)
  | str (s : String)
  | arr (elems : List Json)
  | obj (fields : List (String × Json))

/-- JSON insignificant whitespace. -/
def isWs (c : Char) : Bool :=
  c = ' ' || c = '\n' || c = '\t' || c = '\x0d'

/-- Drop leading JSON whitespace. -/
def skipWs : List Char → List Char
  | [] => []
  | c :: rest => if isWs c then skipWs rest else c :: rest

/-- ASCII decimal digit test. -/
def isDigitCh (c : Char) : Bool :=
  48 ≤ c.toNat && c.toNat ≤ 57

/-- Split a maximal run of leading decimal digits from the input. -/
def takeDigits : List Char → List Char × List Char
  | [] => ([], [])
  | c :: rest =>
    if isDigitCh c then
      let p := takeDigits rest
      (c :: p.1, p.2)
    else ([], c :: rest)

/-- Numeric value of a run of decimal digits. -/
def digitsToNat (ds : List Char) : Nat :=
  ds.foldl (fun a c => a * 10 + (c.toNat - 48)) 0

/-- Value of one hex digit (either case), `none` for non-hex characters. -/
def hexCharVal (c : Char) : Option Nat :=
  if 48 ≤ c.toNat ∧ c.toNat ≤ 57 then some (c.toNat - 48)
  else if 97 ≤ c.toNat ∧ c.toNat ≤ 102 then some (c.toNat - 87)
  else if 65 ≤ c.toNat ∧ c.toNat ≤ 70 then some (c.toNat - 55)
  else none

/-- The character denoted by a single-character JSON escape, if any. -/
def unescape1 (c : Char) : Option Char :=
  if c = '"' then some '"'
  else if c = '\\' then some '\\'
  else if c = '/' then some '/'
  else if c = 'b' then some '\x08'
  else if c = 't' then some '\x09'
  else if c = 'n' then some '\x0a'
  else if c = 'f' then some '\x0c'
  else if c = 'r' then some '\x0d'
  else none

/-- Parse the body of a JSON string literal (after the opening quote) up to and
including the closing quote, returning the decoded characters and the rest of
the input.  Unescaped control characters are rejected, as serde_json does. -/
def parseStrBody : Nat → List Char → Option (List Char × List Char)
  | 0, _ => none
  | _ + 1, [] => none
  | fuel + 1, c :: rest =>
    if c = '"' then some ([], rest)
    else if c = '\\' then
      match rest with
      | [] => none
      | e :: rest2 =>
        if e = 'u' then
          match rest2 with
          | h1 :: h2 :: h3 :: h4 :: rest3 =>
            match hexCharVal h1, hexCharVal h2, hexCharVal h3, hexCharVal h4 with
            | some a, some b, some x, some y =>
              let n := ((a * 16 + b) * 16 + x) * 16 + y
              if Nat.isValidChar n then
                (parseStrBody fuel rest3).map (fun p => (Char.ofNat n :: p.1, p.2))
              else none
            | _, _, _, _ => none
          | _ => none
        else
          match unescape1 e with
          | some u => (parseStrBody fuel rest2).map (fun p => (u :: p.1, p.2))
          | none => none
    else if c.toNat < 32 then none
    else (parseStrBody fuel rest).map (fun p => (c :: p.1, p.2))

mutual

/-- Parse one JSON value (leading whitespace allowed). -/
def parseVal : Nat → List Char → Option (Json × List Char)
  | 0, _ => none
  | fuel + 1, input =>
    match skipWs input with
    | [] => none
    | c :: rest =>
      if c = '"' then
        (parseStrBody (rest.length + 1) rest).map (fun p => (Json.str (String.mk p.1), p.2))
      else if c = '[' then
        match skipWs rest with
        | ']' :: rest2 => some (Json.arr [], rest2)
        | rest2 => (parseElems fuel rest2).map (fun p => (Json.arr p.1, p.2))
      else if c = '\x7b' then
        match skipWs rest with
        | '\x7d' :: rest2 => some (Json.obj [], rest2)
        | rest2 => (parseFields fuel rest2).map (fun p => (Json.obj p.1, p.2))
      else if c = 't' then
        match rest with
        | 'r' :: 'u' :: 'e' :: rest2 => some (Json.bool true, rest2)
        | _ => none
      else if c = 'f' then
        match rest with
        | 'a' :: 'l' :: 's' :: 'e' :: rest2 => some (Json.bool false, rest2)
        | _ => none
      else if c = 'n' then
        match rest with
        | 'u' :: 'l' :: 'l' :: rest2 => some (Json.null, rest2)
        | _ => none
      else if isDigitCh c then
        let p := takeDigits (c :: rest)
        some (Json.num (digitsToNat p.1), p.2)
      else none

/-- Parse the elements of a non-empty JSON array, including the closing `]`. -/
def parseElems : Nat → List Char → Option (List Json × List Char)
  | 0, _ => none
  | fuel + 1, input =>
    match parseVal fuel input with
    | none => none
    | some (v, rest) =>
      match skipWs rest with
      | ',' :: rest2 => (parseElems fuel rest2).map (fun p => (v :: p.1, p.2))
      | ']' :: rest2 => some ([v], rest2)
      | _ => none

/-- Parse the members of a non-empty JSON object, including the closing brace. -/
def parseFields : Nat → List Char → Option (List (String × Json) × List Char)
  | 0, _ => none
  | fuel + 1, input =>
    match skipWs input with
    | '"' :: rest =>
      match parseStrBody (rest.length + 1) rest with
      | none => none
      | some (k, rest2) =>
        match skipWs rest2 with
        | ':' :: rest3 =>
          match parseVal fuel rest3 with
          | none => none
          | some (v, rest4) =>
            match skipWs rest4 with
            | ',' :: rest5 => (parseFields fuel rest5).map
                (fun p => ((String.mk k, v) :: p.1, p.2))
            | '\x7d' :: rest5 => some ([(String.mk k, v)], rest5)
            | _ => none
        | _ => none
    | _ => none

end

/-- First value bound to a key in a parsed JSON object. -/
def lookupField : List (String × Json) → String → Option Json
  | [], _ => none
  | (k, v) :: fs, key => if k = key then some v else lookupField fs key

/-- Deserializing a `TaskStatus` from its serialized variant name. -/
def statusFromName (s : String) : Option TaskStatus :=
  if s = "NotStarted" then some TaskStatus.NotStarted
  else if s = "InProgress" then some TaskStatus.InProgress
  else if s = "Completed" then some TaskStatus.Completed
  else none

/-- Deserializing one `Task`: an object with an `id` number fitting in `u32`,
a `description` string and a `status` variant name. -/
def taskFromJson : Json → Option Task
  | Json.obj fields =>
    match lookupField fields "id", lookupField fields "description",
        lookupField fields "status" with
    | some (Json.num i), some (Json.str d), some (Json.str s) =>
      if i < 4294967296 then
        (statusFromName s).map (fun st => { id := i, description := d, status := st })
      else none
    | _, _, _ => none
  | _ => none

/-- Deserializing a list of tasks elementwise. -/
def tasksFromJson : List Json → Option (List Task)
  | [] => some []
  | j :: js =>
    match taskFromJson j, tasksFromJson js with
    | some t, some ts => some (t :: ts)
    | _, _ => none

/-- Deserializing a `TaskList`: an object whose `tasks` key holds an array. -/
def taskListFromJson : Json → Option TaskList
  | Json.obj fields =>
    match lookupField fields "tasks" with
    | some (Json.arr js) => (tasksFromJson js).map TaskList.mk
    | _ => none
  | _ => none

/-- Model of `serde_json::from_str::<TaskList>`: parse one JSON value, require
only trailing whitespace after it, then deserialize. -/
def serde_from_str (s : String) : Option TaskList :=
  match parseVal (s.data.length + 1) s.data with
  | some (v, rest) => if skipWs rest = [] then taskListFromJson v else none
  | none => none

/-- `TaskList::import`: on success the whole collection is replaced by the
deserialized one; the `?` on `serde_json::from_str` returns before any
mutation, so on failure the list is untouched. -/
def TaskList.importStr (l : TaskList) (tasks : String) : Except String Unit × TaskList :=
  match serde_from_str tasks with
  | some imported => (Except.ok (), { tasks := imported.tasks })
  | none => (Except.error "ParseError", l)

/-! ## Command parsing (`Command::from_str` and the `FromStr` impls).
`parts[i]` indexing on the token vector can panic in Rust; the embedding
returns `none` for a panic and `some` result otherwise, so the safety of the
parser is the statement that it never returns `none`. -/

/-- `Format` from `src/main.rs`. -/
inductive Format where
  | Json
  | Yaml
  | Plaintext
deriving DecidableEq

/-- `impl FromStr for Format`. -/
def Format.from_str (s : String) : Except String Format :=
  if s = "j" ∨ s = "json" then Except.ok Format.Json
  else if s = "y" ∨ s = "yaml" then Except.ok Format.Yaml
  else if s = "p" ∨ s = "plaintext" then Except.ok Format.Plaintext
  else Except.error "Invalid export format."

/-- `TaskField` from `src/main.rs`. -/
inductive TaskField where
  | Description
  | Status
deriving DecidableEq

/-- `impl FromStr for TaskField`. -/
def TaskField.from_str (s : String) : Except String TaskField :=
  if s = "description" ∨ s = "d" then Except.ok TaskField.Description
  else if s = "status" ∨ s = "s" then Except.ok TaskField.Status
  else Except.error "Invalid field argument"

/-- `impl FromStr for TaskStatus`. -/
def TaskStatus.from_str (s : String) : Except String TaskStatus :=
  if s = "not started" ∨ s = "ns" then Except.ok TaskStatus.NotStarted
  else if s = "in progress" ∨ s = "ip" then Except.ok TaskStatus.InProgress
  else if s = "completed" ∨ s = "c" then Except.ok TaskStatus.Completed
  else Except.error "Error while parsing task status"

/-- Model of Rust's `str::parse::<u32>`: optional `+` sign, then a nonempty
all-digit run whose value must fit in `u32`. -/
def parse_u32 (s : String) : Except String Nat :=
  match s.data with
  | [] => Except.error "cannot parse integer from empty string"
  | cs =>
    let ds := match cs with
      | '+' :: rest => rest
      | _ => cs
    if ds = [] then Except.error "invalid digit found in string"
    else if ds.all isDigitCh then
      let n := digitsToNat ds
      if n < 4294967296 then Except.ok n
      else Except.error "number too large to fit in target type"
    else Except.error "invalid digit found in string"

/-- `val.split(" ")`: split on every single space, keeping empty pieces;
always yields at least one piece. -/
def splitAux : List Char → List Char → List String
  | [], acc => [String.mk acc.reverse]
  | c :: rest, acc =>
    if c = ' ' then String.mk acc.reverse :: splitAux rest []
    else splitAux rest (c :: acc)

/-- Tokenization used by `Command::from_str`. -/
def splitTokens (cs : List Char) : List String :=
  splitAux cs []

/-- `Command` from `src/main.rs`. -/
inductive Command where
  | Add (val : String)
  | Remove (id : Nat)
  | Update (id : Nat) (new_val : String) (field : TaskField)
  | Export (format : Format) (out_file : String)
  | Quit
deriving DecidableEq

/-- The body of `Command::from_str` acting on the token vector.  `none` models
a Rust panic from an out-of-bounds `parts[i]`; every `?` propagation of an
error becomes an `Except.error`. -/
def Command.fromParts (parts : List String) : Option (Except String Command) :=
  match parts[0]? with
  | none => none
  | some head =>
    if head = "a" ∨ head = "add" then
      if parts.length < 2 then some (Except.error "Invalid arguments for add.")
      else
        match parts[1]? with
        | none => none
        | some v => some (Except.ok (Command.Add v))
    else if head = "r" ∨ head = "remove" then
      if parts.length < 2 then some (Except.error "Invalid arguments for remove.")
      else
        match parts[1]? with
        | none => none
        | some v =>
          some (match parse_u32 v with
            | Except.ok id => Except.ok (Command.Remove id)
            | Except.error e => Except.error e)
    else if head = "u" ∨ head = "update" then
      if parts.length < 4 then some (Except.error "Invalid arguments for update.")
      else
        match parts[1]?, parts[2]?, parts[3]? with
        | some p1, some p2, some p3 =>
          some (match parse_u32 p1 with
            | Except.error e => Except.error e
            | Except.ok id =>
              match TaskField.from_str p2.toLower with
              | Except.error e => Except.error e
              | Except.ok field => Except.ok (Command.Update id p3 field))
        | _, _, _ => none
    else if head = "q" ∨ head = "quit" then some (Except.ok Command.Quit)
    else if head = "e" ∨ head = "export" then
      if parts.length < 3 then some (Except.error "Invalid arguments for export.")
      else
        match parts[1]?, parts[2]? with
        | some p1, some p2 =>
          some (match Format.from_str p1 with
            | Except.error e => Except.error e
            | Except.ok format => Except.ok (Command.Export format p2))
        | _, _ => none
    else some (Except.error "Invalid argument.")

/-- `Command::from_str`: split the line on single spaces, then dispatch on the
first token. -/
def Command.from_str (val : String) : Option (Except String Command) :=
  Command.fromParts (splitTokens val.data)

/-- The JSON value that the serializer's output for one task denotes. -/
def taskJson (t : Task) : Json :=
  Json.obj [("id", Json.num t.id), ("description", Json.str t.description),
    ("status", Json.str (statusName t.status))]

/-! ## Theorems -/

/-- C10: exporting an empty `TaskList` with the Plaintext formatter returns
exactly the empty string. -/
theorem plaintext_format_empty : PlaintextFormatter.format { tasks := [] } = "" := rfl

/-- C3: Plaintext export produces one `"<id>: <description>\t<display name>"`
line per task in insertion order, joined by newline with no trailing newline,
with display names `Not Started` / `In Progress` / `Completed`; on the
two-task example it yields exactly the expected string. -/
theorem plaintext_format_spec (l : TaskList) :
    PlaintextFormatter.format l =
      String.intercalate "\n" (l.tasks.map (fun task =>
        Nat.repr task.id ++ ": " ++ task.description ++ "\t" ++ task.status.display)) ∧
    TaskStatus.display TaskStatus.NotStarted = "Not Started" ∧
    TaskStatus.display TaskStatus.InProgress = "In Progress" ∧
    TaskStatus.display TaskStatus.Completed = "Completed" ∧
    PlaintextFormatter.format
        { tasks := [{ id := 1, description := "Task 1", status := TaskStatus.NotStarted },
                    { id := 2, description := "Task 2", status := TaskStatus.Completed }] } =
      "1: Task 1\tNot Started\n2: Task 2\tCompleted" :=
  ⟨rfl, rfl, rfl, rfl, by decide⟩

/-- C7: `add` appends the given task at the end of the list (it never merges
by id and cannot fail), and `Task::new` produces a task with the given
description and status `NotStarted`. -/
theorem add_appends (l : TaskList) (t : Task) (id : Nat) (d : String) :
    (l.add t).tasks = l.tasks ++ [t] ∧
    (Task.new id d).status = TaskStatus.NotStarted ∧
    (Task.new id d).description = d ∧
    (Task.new id d).id = id :=
  ⟨rfl, rfl, rfl, rfl⟩

/-- C6: `remove` deletes every task whose id equals the argument, never fails,
leaves the list unchanged when nothing matches, and is idempotent. -/
theorem remove_spec (l : TaskList) (id : Nat) :
    (∀ t ∈ (l.remove id).tasks, t.id ≠ id) ∧
    (l.remove id).remove id = l.remove id ∧
    ((∀ t ∈ l.tasks, t.id ≠ id) → l.remove id = l) := by
  refine ⟨?_, ?_, ?_⟩
  · intro t ht
    have := (List.mem_filter.mp ht).2
    simpa [bne_iff_ne] using this
  · show TaskList.mk _ = TaskList.mk _
    simp only [TaskList.remove, TaskList.mk.injEq, List.filter_filter, Bool.and_self]
  · intro h
    cases l with
    | mk ts =>
      simp only [TaskList.remove, TaskList.mk.injEq]
      exact List.filter_eq_self.mpr (fun t ht => by simpa [bne_iff_ne] using h t ht)

/-- C6 witness: removing id 2 from a singleton list with id 1 is a no-op. -/
theorem remove_spec_witness :
    TaskList.remove { tasks := [Task.new 1 "a"] } 2 = { tasks := [Task.new 1 "a"] } :=
  (remove_spec { tasks := [Task.new 1 "a"] } 2).2.2 (by decide)

/-- Helper: the find-first status update returns `none` exactly on the lists
that contain no task with the given id. -/
theorem updateFirstStatus_eq_none {ts : List Task} {id : Nat} {s : TaskStatus}
    (h : ∀ t ∈ ts, t.id ≠ id) : updateFirstStatus ts id s = none := by
  induction ts with
  | nil => rfl
  | cons t rest ih =>
    have ht : t.id ≠ id := h t (List.mem_cons_self t rest)
    simp only [updateFirstStatus, if_neg ht, ih (fun u hu => h u (List.mem_cons_of_mem t hu)),
      Option.map_none']

/-- Helper: the find-first description update returns `none` exactly on the
lists that contain no task with the given id. -/
theorem updateFirstDescription_eq_none {ts : List Task} {id : Nat} {d : String}
    (h : ∀ t ∈ ts, t.id ≠ id) : updateFirstDescription ts id d = none := by
  induction ts with
  | nil => rfl
  | cons t rest ih =>
    have ht : t.id ≠ id := h t (List.mem_cons_self t rest)
    simp only [updateFirstDescription, if_neg ht,
      ih (fun u hu => h u (List.mem_cons_of_mem t hu)), Option.map_none']

/-- C5: `update_status` and `update_description` on an id no task carries fail
with a `NotFound` error message reporting that id, and leave the list exactly
as it was. -/
theorem update_missing_id_fails (l : TaskList) (id : Nat) (s : TaskStatus) (d : String)
    (h : ∀ t ∈ l.tasks, t.id ≠ id) :
    l.update_status id s =
      (Except.error ("Task with id " ++ Nat.repr id ++ " was not found"), l) ∧
    l.update_description id d =
      (Except.error ("Task with id " ++ Nat.repr id ++ " was not found"), l) := by
  constructor
  · simp only [TaskList.update_status, updateFirstStatus_eq_none h]
  · simp only [TaskList.update_description, updateFirstDescription_eq_none h]

/-- C5 witness: updating id 999 in the empty list fails with the message the
Rust test `test_tasklist_update_status_nonexistent` asserts. -/
theorem update_missing_id_fails_witness :
    TaskList.update_status TaskList.new 999 TaskStatus.Completed =
      (Except.error "Task with id 999 was not found", TaskList.new) ∧
    TaskList.update_description TaskList.new 999 "New description" =
      (Except.error "Task with id 999 was not found", TaskList.new) :=
  update_missing_id_fails TaskList.new 999 TaskStatus.Completed "New description" (by decide)

/-- Helper: find-first status update on a list that splits as
`pre ++ t :: post` with no match in `pre` and `t` matching rewrites exactly
the first matching task's status. -/
theorem updateFirstStatus_split (pre post : List Task) (t : Task) (id : Nat) (s : TaskStatus)
    (hpre : ∀ u ∈ pre, u.id ≠ id) (ht : t.id = id) :
    updateFirstStatus (pre ++ t :: post) id s =
      some (pre ++ { t with status := s } :: post) := by
  induction pre with
  | nil => simp [updateFirstStatus, if_pos ht]
  | cons u rest ih =>
    have hu : u.id ≠ id := hpre u (List.mem_cons_self u rest)
    simp only [List.cons_append, updateFirstStatus, if_neg hu, List.append_eq,
      ih (fun v hv => hpre v (List.mem_cons_of_mem u hv)), Option.map_some']

/-- Helper: the same splitting lemma for the description update. -/
theorem updateFirstDescription_split (pre post : List Task) (t : Task) (id : Nat) (d : String)
    (hpre : ∀ u ∈ pre, u.id ≠ id) (ht : t.id = id) :
    updateFirstDescription (pre ++ t :: post) id d =
      some (pre ++ { t with description := d } :: post) := by
  induction pre with
  | nil => simp [updateFirstDescription, if_pos ht]
  | cons u rest ih =>
    have hu : u.id ≠ id := hpre u (List.mem_cons_self u rest)
    simp only [List.cons_append, updateFirstDescription, if_neg hu, List.append_eq,
      ih (fun v hv => hpre v (List.mem_cons_of_mem u hv)), Option.map_some']

/-- C8: when a task with the id exists (write the list as `pre ++ t :: post`
with the first match `t`), `update_status` and `update_description` succeed
and change exactly the targeted field of exactly that first match; every task
in `pre` and `post`, and the untargeted field of `t`, are untouched. -/
theorem update_changes_first_match_only (l : TaskList) (id : Nat) (s : TaskStatus) (d : String)
    (pre post : List Task) (t : Task)
    (hsplit : l.tasks = pre ++ t :: post)
    (hpre : ∀ u ∈ pre, u.id ≠ id) (ht : t.id = id) :
    l.update_status id s =
      (Except.ok (), { tasks := pre ++ { t with status := s } :: post }) ∧
    l.update_description id d =
      (Except.ok (), { tasks := pre ++ { t with description := d } :: post }) := by
  constructor
  · simp only [TaskList.update_status, hsplit, updateFirstStatus_split pre post t id s hpre ht]
  · simp only [TaskList.update_description, hsplit,
      updateFirstDescription_split pre post t id d hpre ht]

/-- C8 witness: with two tasks sharing id 1, only the first is updated, and
the other field of the updated task is untouched. -/
theorem update_changes_first_match_only_witness :
    TaskList.update_status { tasks := [Task.new 1 "a", Task.new 1 "b"] } 1 TaskStatus.Completed =
      (Except.ok (), { tasks := [⟨1, "a", TaskStatus.Completed⟩, Task.new 1 "b"] }) ∧
    TaskList.update_description { tasks := [Task.new 1 "a", Task.new 1 "b"] } 1 "c" =
      (Except.ok (), { tasks := [⟨1, "c", TaskStatus.NotStarted⟩, Task.new 1 "b"] }) :=
  update_changes_first_match_only { tasks := [Task.new 1 "a", Task.new 1 "b"] } 1
    TaskStatus.Completed "c" [] [Task.new 1 "b"] (Task.new 1 "a") rfl (by decide) rfl

/-- C2 counterexample: parsing `"export json"` does not succeed — the export
arm requires at least three tokens, so the parse returns the error
`"Invalid arguments for export."` rather than any `Export` command. -/
theorem export_no_destination_errors :
    Command.from_str "export json" = some (Except.error "Invalid arguments for export.") := by
  decide

/-- C2 amended: the destination file name token of `export` is mandatory, not
optional: `"export json"` fails with `"Invalid arguments for export."`, while
with a destination token present the parse yields `Export` carrying the
format and that destination. -/
theorem export_requires_destination :
    Command.from_str "export json" = some (Except.error "Invalid arguments for export.") ∧
    Command.from_str "export json out.json" =
      some (Except.ok (Command.Export Format.Json "out.json")) ∧
    Command.from_str "e j out.json" =
      some (Except.ok (Command.Export Format.Json "out.json")) := by
  refine ⟨by decide, by decide, by decide⟩

/-- Helper: splitting on spaces always yields at least one token. -/
theorem splitAux_ne_nil (cs acc : List Char) : splitAux cs acc ≠ [] := by
  induction cs generalizing acc with
  | nil => simp [splitAux]
  | cons c rest ih =>
    by_cases hc : c = ' '
    · simp [splitAux, hc]
    · simpa [splitAux, hc] using ih (c :: acc)

/-- Helper: `fromParts` answers on any one-token vector. -/
theorem fromParts_isSome_one (x : String) : (Command.fromParts [x]).isSome = true := by
  simp only [Command.fromParts, List.length_cons, List.length_nil]
  norm_num
  split_ifs <;> simp

/-- Helper: `fromParts` answers on any two-token vector. -/
theorem fromParts_isSome_two (x y : String) : (Command.fromParts [x, y]).isSome = true := by
  simp only [Command.fromParts, List.length_cons, List.length_nil]
  norm_num
  split_ifs <;> simp

/-- Helper: `fromParts` answers on any three-token vector. -/
theorem fromParts_isSome_three (x y z : String) :
    (Command.fromParts [x, y, z]).isSome = true := by
  simp only [Command.fromParts, List.length_cons, List.length_nil]
  norm_num
  split_ifs <;> simp

/-- Helper: `fromParts` answers on any vector of four or more tokens. -/
theorem fromParts_isSome_many (x y z w : String) (rest : List String) :
    (Command.fromParts (x :: y :: z :: w :: rest)).isSome = true := by
  simp only [Command.fromParts, List.length_cons, List.length_nil]
  norm_num
  split_ifs <;> simp

/-- C9: `Command::from_str` is total: splitting on spaces always yields at
least one token, and on every input string the parser returns a value (a
command or a descriptive error) — it never reaches an out-of-bounds token
index, which the embedding models as `none`. -/
theorem from_str_total (val : String) :
    splitTokens val.data ≠ [] ∧ (Command.from_str val).isSome = true := by
  refine ⟨splitAux_ne_nil _ _, ?_⟩
  show (Command.fromParts (splitTokens val.data)).isSome = true
  have hne : splitTokens val.data ≠ [] := splitAux_ne_nil _ _
  obtain ⟨x, xs, hx⟩ : ∃ x xs, splitTokens val.data = x :: xs := by
    cases h : splitTokens val.data with
    | nil => exact absurd h hne
    | cons x xs => exact ⟨x, xs, rfl⟩
  rw [hx]
  rcases xs with _ | ⟨y, _ | ⟨z, _ | ⟨w, rest⟩⟩⟩
  · exact fromParts_isSome_one x
  · exact fromParts_isSome_two x y
  · exact fromParts_isSome_three x y z
  · exact fromParts_isSome_many x y z w rest

/-- C4: whenever deserialization of the input fails, `import` returns the
parse error and the list is exactly what it was before the call — the early
return of `?` happens before `self.tasks` is assigned, so a failing import
never partially applies. -/
theorem import_failure_leaves_list (l : TaskList) (s : String)
    (h : serde_from_str s = none) :
    l.importStr s = (Except.error "ParseError", l) := by
  simp only [TaskList.importStr, h]

/-- C4 witness: importing the literal text `"invalid json"` into a non-empty
list fails and leaves the contents untouched. -/
theorem import_failure_leaves_list_witness :
    TaskList.importStr { tasks := [Task.new 1 "Test"] } "invalid json" =
      (Except.error "ParseError", { tasks := [Task.new 1 "Test"] }) :=
  import_failure_leaves_list { tasks := [Task.new 1 "Test"] } "invalid json" (by decide)

/-! ### Correctness of the JSON parser on the pretty printer's output -/

/-- Characters are determined by their code points. -/
theorem char_eq_of_toNat_eq {c d : Char} (h : c.toNat = d.toNat) : c = d := by
  rw [← Char.ofNat_toNat c, h, Char.ofNat_toNat]

/-- `skipWs` stops at a non-whitespace head. -/
theorem skipWs_cons_of_not_ws {c : Char} (h : isWs c = false) (l : List Char) :
    skipWs (c :: l) = c :: l := by
  simp [skipWs, h]

/-- `skipWs` drops a leading all-whitespace run. -/
theorem skipWs_append_ws {w : List Char} (h : ∀ c ∈ w, isWs c = true) (x : List Char) :
    skipWs (w ++ x) = skipWs x := by
  induction w with
  | nil => rfl
  | cons c cs ih =>
    simp only [List.cons_append, skipWs, h c (List.mem_cons_self c cs), if_pos]
    exact ih (fun d hd => h d (List.mem_cons_of_mem c hd))

/-- `parseVal` ignores leading whitespace. -/
theorem parseVal_ws {w : List Char} (h : ∀ c ∈ w, isWs c = true) (fuel : Nat)
    (x : List Char) : parseVal fuel (w ++ x) = parseVal fuel x := by
  cases fuel with
  | zero => rfl
  | succ n => simp only [parseVal, skipWs_append_ws h]

/-- One parsing step of a single-character escape sequence. -/
theorem parseStrBody_esc (fuel : Nat) (e u : Char) (tail : List Char)
    (he : e ≠ 'u') (h : unescape1 e = some u) :
    parseStrBody (fuel + 1) ('\\' :: e :: tail) =
      (parseStrBody fuel tail).map (fun p => (u :: p.1, p.2)) := by
  simp +decide only [parseStrBody, if_neg he, h, if_true, if_false]

/-- One parsing step of an unescaped, non-control character. -/
theorem parseStrBody_plain (fuel : Nat) (c : Char) (tail : List Char)
    (h1 : c ≠ '"') (h2 : c ≠ '\\') (h3 : 32 ≤ c.toNat) :
    parseStrBody (fuel + 1) (c :: tail) =
      (parseStrBody fuel tail).map (fun p => (c :: p.1, p.2)) := by
  simp only [parseStrBody, if_neg h1, if_neg h2, if_neg (by omega : ¬ c.toNat < 32)]

/-- `hexCharVal` decodes the lowercase hex digits `hexDigitChar` emits. -/
theorem hexCharVal_hexDigitChar {m : Nat} (hm : m < 16) :
    hexCharVal (hexDigitChar m) = some m := by
  interval_cases m <;> decide

/-- Decoding a JSON string literal body undoes serde_json's escaping. -/
theorem parseStrBody_escape (cs : List Char) : ∀ (fuel : Nat), cs.length < fuel →
    ∀ (rest : List Char),
    parseStrBody fuel ((cs.map escapeChar).flatten ++ '"' :: rest) = some (cs, rest) := by
  induction cs with
  | nil =>
    intro fuel hf rest
    match fuel, hf with
    | fuel + 1, _ => rfl
  | cons c cs ih =>
    intro fuel hf rest
    match fuel, hf with
    | fuel + 1, hf =>
      have hcs : cs.length < fuel := by
        simpa using Nat.lt_of_succ_lt_succ hf
      have ihr := ih fuel hcs rest
      rw [List.map_cons, List.flatten_cons, List.append_assoc]
      by_cases hq : c = '"'
      · subst hq
        rw [show escapeChar '"' = ['\\', '"'] from rfl]
        simp only [List.cons_append, List.nil_append]
        rw [parseStrBody_esc fuel '"' '"' _ (by decide) rfl, ihr]
        rfl
      · by_cases hb : c = '\\'
        · subst hb
          rw [show escapeChar '\\' = ['\\', '\\'] from rfl]
          simp only [List.cons_append, List.nil_append]
          rw [parseStrBody_esc fuel '\\' '\\' _ (by decide) rfl, ihr]
          rfl
        · by_cases h08 : c = '\x08'
          · subst h08
            rw [show escapeChar '\x08' = ['\\', 'b'] from rfl]
            simp only [List.cons_append, List.nil_append]
            rw [parseStrBody_esc fuel 'b' '\x08' _ (by decide) rfl, ihr]
            rfl
          · by_cases h09 : c = '\x09'
            · subst h09
              rw [show escapeChar '\x09' = ['\\', 't'] from rfl]
              simp only [List.cons_append, List.nil_append]
              rw [parseStrBody_esc fuel 't' '\x09' _ (by decide) rfl, ihr]
              rfl
            · by_cases h0a : c = '\x0a'
              · subst h0a
                rw [show escapeChar '\x0a' = ['\\', 'n'] from rfl]
                simp only [List.cons_append, List.nil_append]
                rw [parseStrBody_esc fuel 'n' '\x0a' _ (by decide) rfl, ihr]
                rfl
              · by_cases h0c : c = '\x0c'
                · subst h0c
                  rw [show escapeChar '\x0c' = ['\\', 'f'] from rfl]
                  simp only [List.cons_append, List.nil_append]
                  rw [parseStrBody_esc fuel 'f' '\x0c' _ (by decide) rfl, ihr]
                  rfl
                · by_cases h0d : c = '\x0d'
                  · subst h0d
                    rw [show escapeChar '\x0d' = ['\\', 'r'] from rfl]
                    simp only [List.cons_append, List.nil_append]
                    rw [parseStrBody_esc fuel 'r' '\x0d' _ (by decide) rfl, ihr]
                    rfl
                  · by_cases hctl : c.toNat < 32
                    · rw [show escapeChar c = ['\\', 'u', '0', '0',
                          hexDigitChar (c.toNat / 16), hexDigitChar (c.toNat % 16)] from by
                        simp [escapeChar, hq, hb, h08, h09, h0a, h0c, h0d, hctl]]
                      simp only [List.cons_append, List.nil_append]
                      have hn : ((0 * 16 + 0) * 16 + c.toNat / 16) * 16 + c.toNat % 16
                          = c.toNat := by omega
                      have hv : Nat.isValidChar c.toNat := Or.inl (by omega)
                      simp +decide only [parseStrBody,
                        hexCharVal_hexDigitChar (show c.toNat / 16 < 16 by omega),
                        hexCharVal_hexDigitChar
                          (show c.toNat % 16 < 16 from Nat.mod_lt _ (by norm_num)),
                        show hexCharVal '0' = some 0 from rfl, hn, if_pos hv, ihr,
                        if_true, if_false, Option.map_some, Char.ofNat_toNat]
                      rfl
                    · rw [show escapeChar c = [c] from by
                        simp [escapeChar, hq, hb, h08, h09, h0a, h0c, h0d, hctl]]
                      rw [List.singleton_append,
                        parseStrBody_plain fuel c _ hq hb (by omega), ihr]
                      rfl

/-- Code point of a printed decimal digit. -/
theorem toNat_digit_char {d : Nat} (hd : d < 10) : (Char.ofNat (48 + d)).toNat = 48 + d := by
  interval_cases d <;> decide

/-- Printed decimal digits satisfy the parser's digit test. -/
theorem isDigitCh_digit_char {d : Nat} (hd : d < 10) :
    isDigitCh (Char.ofNat (48 + d)) = true := by
  interval_cases d <;> decide

/-- The fuel-driven decimal printer agrees with `Nat.digits`. -/
theorem natToCharsAux_eq (fuel : Nat) : ∀ (n : Nat), n ≤ fuel → ∀ (acc : List Char),
    natToCharsAux fuel n acc =
      ((Nat.digits 10 n).reverse.map (fun d => Char.ofNat (48 + d))) ++ acc := by
  induction fuel with
  | zero =>
    intro n hn acc
    interval_cases n
    simp [natToCharsAux]
  | succ fuel ih =>
    intro n hn acc
    by_cases h0 : n = 0
    · subst h0
      simp [natToCharsAux]
    · have h10 : n / 10 ≤ fuel := by omega
      rw [show natToCharsAux (fuel + 1) n acc =
          natToCharsAux fuel (n / 10) (Char.ofNat (48 + n % 10) :: acc) from by
        simp [natToCharsAux, h0]]
      rw [ih (n / 10) h10]
      rw [Nat.digits_def' (by norm_num : (1 : Nat) < 10) (Nat.pos_of_ne_zero h0)]
      simp [List.reverse_cons, List.map_append, List.append_assoc]

/-- Closed form of the decimal printer. -/
theorem natToChars_eq (n : Nat) : natToChars n =
    if n = 0 then ['0']
    else ((Nat.digits 10 n).reverse.map (fun d => Char.ofNat (48 + d))) := by
  unfold natToChars
  by_cases h0 : n = 0
  · simp [h0]
  · simp only [if_neg h0, natToCharsAux_eq (n + 1) n (by omega) [], List.append_nil]

/-- Every character the decimal printer emits is a digit. -/
theorem natToChars_digits (n : Nat) : ∀ c ∈ natToChars n, isDigitCh c = true := by
  intro c hc
  rw [natToChars_eq] at hc
  by_cases h0 : n = 0
  · rw [if_pos h0] at hc
    simp only [List.mem_singleton] at hc
    subst hc
    decide
  · rw [if_neg h0] at hc
    obtain ⟨d, hd, hdc⟩ := List.mem_map.mp hc
    have : d < 10 :=
      Nat.digits_lt_base (by norm_num) (List.mem_reverse.mp hd)
    rw [← hdc]
    exact isDigitCh_digit_char this

/-- The decimal printer never emits the empty string. -/
theorem natToChars_ne_nil (n : Nat) : natToChars n ≠ [] := by
  rw [natToChars_eq]
  by_cases h0 : n = 0
  · simp [h0]
  · simp only [if_neg h0, ne_eq, List.map_eq_nil_iff, List.reverse_eq_nil_iff]
    exact Nat.digits_ne_nil_iff_ne_zero.mpr h0

/-- Folding the parser's digit accumulator over printed digits recovers the
value (with an arbitrary accumulator seed). -/
theorem foldl_digit_chars (ds : List Nat) : (∀ d ∈ ds, d < 10) → ∀ (a : Nat),
    List.foldl (fun acc c => acc * 10 + (c.toNat - 48)) a
      (ds.reverse.map (fun d => Char.ofNat (48 + d))) =
      a * 10 ^ ds.length + Nat.ofDigits 10 ds := by
  induction ds with
  | nil =>
    intro _ a
    simp [Nat.ofDigits]
  | cons d ds ih =>
    intro h a
    have hd : d < 10 := h d (List.mem_cons_self d ds)
    have hds : ∀ x ∈ ds, x < 10 := fun x hx => h x (List.mem_cons_of_mem d hx)
    rw [List.reverse_cons, List.map_append, List.foldl_append, ih hds a]
    simp only [List.map_cons, List.map_nil, List.foldl_cons, List.foldl_nil,
      toNat_digit_char hd, Nat.ofDigits_cons, List.length_cons]
    ring_nf
    omega

/-- Parsing back the printed decimal digits of `n` gives `n`. -/
theorem digitsToNat_natToChars (n : Nat) : digitsToNat (natToChars n) = n := by
  rw [natToChars_eq]
  by_cases h0 : n = 0
  · simp [h0, digitsToNat]
  · rw [if_neg h0]
    unfold digitsToNat
    rw [foldl_digit_chars (Nat.digits 10 n)
      (fun d hd => Nat.digits_lt_base (by norm_num) hd) 0]
    simp [Nat.ofDigits_digits]

/-- `takeDigits` splits exactly at the end of a printed digit run. -/
theorem takeDigits_append (ds : List Char) (h : ∀ c ∈ ds, isDigitCh c = true) :
    ∀ (rest : List Char), (∀ r, rest.head? = some r → isDigitCh r = false) →
    takeDigits (ds ++ rest) = (ds, rest) := by
  induction ds with
  | nil =>
    intro rest hr
    cases rest with
    | nil => rfl
    | cons r rs => simp [takeDigits, hr r rfl]
  | cons c cs ih =>
    intro rest hr
    have hc : isDigitCh c = true := h c (List.mem_cons_self c cs)
    have hcs : ∀ x ∈ cs, isDigitCh x = true := fun x hx => h x (List.mem_cons_of_mem c hx)
    simp [takeDigits, hc, ih hcs rest hr]

/-- A digit character differs from any non-digit character. -/
theorem digit_ne {c : Char} (h : isDigitCh c = true) (x : Char)
    (hx : isDigitCh x = false) : c ≠ x := by
  intro he
  subst he
  rw [h] at hx
  cases hx

/-- Digit characters are not JSON whitespace. -/
theorem isWs_eq_false_of_digit {c : Char} (h : isDigitCh c = true) : isWs c = false := by
  simp only [isWs, Bool.or_eq_false_iff, decide_eq_false_iff_not]
  refine ⟨⟨⟨?_, ?_⟩, ?_⟩, ?_⟩ <;>
    exact fun he => absurd h (by subst he; decide)

/-- Each escaped character occupies at least one output character. -/
theorem escapeChar_length_pos (c : Char) : 1 ≤ (escapeChar c).length := by
  unfold escapeChar
  split_ifs <;> simp

/-- Escaping never shortens a string. -/
theorem length_le_flatten_escape (cs : List Char) :
    cs.length ≤ ((cs.map escapeChar).flatten).length := by
  induction cs with
  | nil => simp
  | cons c cs ih =>
    simp only [List.map_cons, List.flatten_cons, List.length_append, List.length_cons]
    have := escapeChar_length_pos c
    omega

/-- `parseVal` decodes a printed JSON string literal. -/
theorem parseVal_str (fuel : Nat) (s : String) (rest : List Char) :
    parseVal (fuel + 1) (strLit s ++ rest) = some (Json.str s, rest) := by
  have hshape : strLit s ++ rest =
      '"' :: ((s.data.map escapeChar).flatten ++ '"' :: rest) := by
    simp [strLit, escapeString, List.append_assoc]
  rw [hshape]
  simp only [parseVal, skipWs_cons_of_not_ws (by decide : isWs '"' = false)]
  rw [if_true]
  rw [parseStrBody_escape s.data _ (by
    have := length_le_flatten_escape s.data
    simp only [List.length_append, List.length_cons]
    omega) rest]
  rfl

/-- `parseVal` decodes a printed decimal integer (when the following character
is not itself a digit). -/
theorem parseVal_num (fuel n : Nat) (rest : List Char)
    (hrest : ∀ r, rest.head? = some r → isDigitCh r = false) :
    parseVal (fuel + 1) (natToChars n ++ rest) = some (Json.num n, rest) := by
  obtain ⟨c, cs, hc⟩ : ∃ c cs, natToChars n = c :: cs := by
    cases h : natToChars n with
    | nil => exact absurd h (natToChars_ne_nil n)
    | cons c cs => exact ⟨c, cs, rfl⟩
  have hcd : isDigitCh c = true := natToChars_digits n c (hc ▸ List.mem_cons_self c cs)
  rw [hc, List.cons_append]
  simp only [parseVal, skipWs_cons_of_not_ws (isWs_eq_false_of_digit hcd)]
  rw [if_neg (digit_ne hcd '"' (by decide)), if_neg (digit_ne hcd '[' (by decide)),
    if_neg (digit_ne hcd '\x7b' (by decide)), if_neg (digit_ne hcd 't' (by decide)),
    if_neg (digit_ne hcd 'f' (by decide)), if_neg (digit_ne hcd 'n' (by decide)),
    if_pos hcd]
  rw [show c :: (cs ++ rest) = natToChars n ++ rest from by rw [hc]; rfl]
  rw [takeDigits_append (natToChars n) (natToChars_digits n) rest hrest]
  rw [digitsToNat_natToChars]

/-- Skipping a whitespace run stops at the first non-whitespace character. -/
theorem skipWs_run {w : List Char} (hw : ∀ c ∈ w, isWs c = true) {c : Char}
    (hc : isWs c = false) (x : List Char) : skipWs (w ++ c :: x) = c :: x := by
  rw [skipWs_append_ws hw, skipWs_cons_of_not_ws hc]

/-- One field of a JSON object followed by a comma and further fields. -/
theorem parseFields_comma (fuel : Nat) (kcs vinput vrest more rest : List Char)
    (v : Json) (fs : List (String × Json))
    (hk : (kcs.map escapeChar).flatten = kcs)
    (hval : parseVal fuel vinput = some (v, vrest))
    (hvr : skipWs vrest = ',' :: more)
    (hrec : parseFields fuel more = some (fs, rest)) :
    parseFields (fuel + 1) ('"' :: (kcs ++ '"' :: ':' :: vinput)) =
      some ((String.mk kcs, v) :: fs, rest) := by
  have hsb := parseStrBody_escape kcs ((kcs ++ '"' :: ':' :: vinput).length + 1)
    (by simp only [List.length_append]; omega) (':' :: vinput)
  rw [hk] at hsb
  simp +decide only [parseFields, skipWs_cons_of_not_ws (by decide : isWs '"' = false),
    hsb, skipWs_cons_of_not_ws (by decide : isWs ':' = false), hval, hvr, hrec,
    Option.map_some', if_true, if_false]

/-- The final field of a JSON object, followed by the closing brace. -/
theorem parseFields_last (fuel : Nat) (kcs vinput vrest rest : List Char) (v : Json)
    (hk : (kcs.map escapeChar).flatten = kcs)
    (hval : parseVal fuel vinput = some (v, vrest))
    (hvr : skipWs vrest = '\x7d' :: rest) :
    parseFields (fuel + 1) ('"' :: (kcs ++ '"' :: ':' :: vinput)) =
      some ([(String.mk kcs, v)], rest) := by
  have hsb := parseStrBody_escape kcs ((kcs ++ '"' :: ':' :: vinput).length + 1)
    (by simp only [List.length_append]; omega) (':' :: vinput)
  rw [hk] at hsb
  simp +decide only [parseFields, skipWs_cons_of_not_ws (by decide : isWs '"' = false),
    hsb, skipWs_cons_of_not_ws (by decide : isWs ':' = false), hval, hvr,
    Option.map_some', if_true, if_false]

/-- One array element followed by a comma and further elements. -/
theorem parseElems_comma (fuel : Nat) (input vrest more rest : List Char) (v : Json)
    (vs : List Json)
    (hval : parseVal fuel input = some (v, vrest))
    (hvr : skipWs vrest = ',' :: more)
    (hrec : parseElems fuel more = some (vs, rest)) :
    parseElems (fuel + 1) input = some (v :: vs, rest) := by
  simp +decide only [parseElems, hval, hvr, hrec, Option.map_some']

/-- The final array element, followed by the closing bracket. -/
theorem parseElems_last (fuel : Nat) (input vrest rest : List Char) (v : Json)
    (hval : parseVal fuel input = some (v, vrest))
    (hvr : skipWs vrest = ']' :: rest) :
    parseElems (fuel + 1) input = some ([v], rest) := by
  simp +decide only [parseElems, hval, hvr]

/-- A non-empty JSON object value (the character after the brace and
whitespace is the quote of the first key). -/
theorem parseVal_obj (fuel : Nat) (afterbrace inner rest : List Char)
    (fs : List (String × Json))
    (hws : skipWs afterbrace = '"' :: inner)
    (hf : parseFields fuel ('"' :: inner) = some (fs, rest)) :
    parseVal (fuel + 1) ('\x7b' :: afterbrace) = some (Json.obj fs, rest) := by
  simp +decide only [parseVal, skipWs_cons_of_not_ws (by decide : isWs '\x7b' = false),
    hws, if_true, if_false]
  split
  · rename_i heq
    simp at heq
  · simp [hf]

/-- A non-empty JSON array value whose first element is an object. -/
theorem parseVal_arr (fuel : Nat) (afterbracket inner rest : List Char)
    (vs : List Json)
    (hws : skipWs afterbracket = '\x7b' :: inner)
    (he : parseElems fuel ('\x7b' :: inner) = some (vs, rest)) :
    parseVal (fuel + 1) ('[' :: afterbracket) = some (Json.arr vs, rest) := by
  simp +decide only [parseVal, skipWs_cons_of_not_ws (by decide : isWs '[' = false),
    hws, if_true, if_false]
  split
  · rename_i heq
    simp at heq
  · simp [he]

/-- The empty JSON array value. -/
theorem parseVal_arr_empty (fuel : Nat) (afterbracket rest : List Char)
    (hws : skipWs afterbracket = ']' :: rest) :
    parseVal (fuel + 1) ('[' :: afterbracket) = some (Json.arr [], rest) := by
  simp +decide only [parseVal, skipWs_cons_of_not_ws (by decide : isWs '[' = false),
    hws, if_true, if_false]

/-- `parseFields` ignores leading whitespace. -/
theorem parseFields_ws {w : List Char} (hw : ∀ c ∈ w, isWs c = true) (fuel : Nat)
    (x : List Char) : parseFields fuel (w ++ x) = parseFields fuel x := by
  cases fuel with
  | zero => rfl
  | succ n => simp only [parseFields, skipWs_append_ws hw]

/-- A comma is not a decimal digit (as the character following a printed id). -/
theorem head_comma_not_digit (x : List Char) :
    ∀ r, (',' :: x).head? = some r → isDigitCh r = false := by
  intro r hr
  simp only [List.head?_cons, Option.some.injEq] at hr
  subst hr
  decide

/-- Parsing the three printed fields of a task object. -/
theorem parseFields_task (fuel : Nat) (t : Task) (rest : List Char) :
    parseFields (fuel + 3 + 1)
      ('"' :: ("id".data ++ ('"' :: (':' :: (' ' :: (natToChars t.id ++ (',' :: ("\n      ".data ++ ('"' :: ("description".data ++ ('"' :: (':' :: (' ' :: (strLit t.description ++ (',' :: ("\n      ".data ++ ('"' :: ("status".data ++ ('"' :: (':' :: (' ' :: (strLit (statusName t.status) ++ ("\n    ".data ++ ('\x7d' :: (rest))))))))))))))))))))))))) =
      some ([("id", Json.num t.id), ("description", Json.str t.description),
        ("status", Json.str (statusName t.status))], rest) := by
  have hval3 : parseVal (fuel + 1)
      (' ' :: (strLit (statusName t.status) ++ ("\n    ".data ++ ('\x7d' :: (rest))))) =
      some (Json.str (statusName t.status), "\n    ".data ++ ('\x7d' :: (rest))) := by
    rw [show (' ' :: (strLit (statusName t.status) ++ ("\n    ".data ++ ('\x7d' :: (rest)))) : List Char) =
        [' '] ++ (strLit (statusName t.status) ++ ("\n    ".data ++ ('\x7d' :: (rest)))) from rfl,
      parseVal_ws (by decide) (fuel + 1), parseVal_str fuel]
  have h3 : parseFields (fuel + 1 + 1)
      ('"' :: ("status".data ++ ('"' :: (':' :: (' ' :: (strLit (statusName t.status) ++ ("\n    ".data ++ ('\x7d' :: (rest))))))))) =
      some ([("status", Json.str (statusName t.status))], rest) :=
    parseFields_last (fuel + 1) "status".data _ _ rest _ (by decide) hval3
      (skipWs_run (by decide) (by decide) rest)
  have hval2 : parseVal (fuel + 1 + 1)
      (' ' :: (strLit t.description ++ (',' :: ("\n      ".data ++ ('"' :: ("status".data ++ ('"' :: (':' :: (' ' :: (strLit (statusName t.status) ++ ("\n    ".data ++ ('\x7d' :: (rest))))))))))))) =
      some (Json.str t.description, ',' :: ("\n      ".data ++ ('"' :: ("status".data ++ ('"' :: (':' :: (' ' :: (strLit (statusName t.status) ++ ("\n    ".data ++ ('\x7d' :: (rest))))))))))) := by
    rw [show (' ' :: (strLit t.description ++ (',' :: ("\n      ".data ++ ('"' :: ("status".data ++ ('"' :: (':' :: (' ' :: (strLit (statusName t.status) ++ ("\n    ".data ++ ('\x7d' :: (rest)))))))))))) : List Char) =
        [' '] ++ (strLit t.description ++ (',' :: ("\n      ".data ++ ('"' :: ("status".data ++ ('"' :: (':' :: (' ' :: (strLit (statusName t.status) ++ ("\n    ".data ++ ('\x7d' :: (rest)))))))))))) from rfl,
      parseVal_ws (by decide) (fuel + 1 + 1), parseVal_str (fuel + 1)]
  have h2 : parseFields (fuel + 2 + 1)
      ('"' :: ("description".data ++ ('"' :: (':' :: (' ' :: (strLit t.description ++ (',' :: ("\n      ".data ++ ('"' :: ("status".data ++ ('"' :: (':' :: (' ' :: (strLit (statusName t.status) ++ ("\n    ".data ++ ('\x7d' :: (rest))))))))))))))))) =
      some ([("description", Json.str t.description),
        ("status", Json.str (statusName t.status))], rest) := by
    refine parseFields_comma (fuel + 2) "description".data _ _ _ rest _ _
      (by decide) hval2 (skipWs_cons_of_not_ws (by decide) _) ?_
    rw [parseFields_ws (by decide) (fuel + 2)]
    exact h3
  have hval1 : parseVal (fuel + 2 + 1)
      (' ' :: (natToChars t.id ++ (',' :: ("\n      ".data ++ ('"' :: ("description".data ++ ('"' :: (':' :: (' ' :: (strLit t.description ++ (',' :: ("\n      ".data ++ ('"' :: ("status".data ++ ('"' :: (':' :: (' ' :: (strLit (statusName t.status) ++ ("\n    ".data ++ ('\x7d' :: (rest))))))))))))))))))))) =
      some (Json.num t.id, ',' :: ("\n      ".data ++ ('"' :: ("description".data ++ ('"' :: (':' :: (' ' :: (strLit t.description ++ (',' :: ("\n      ".data ++ ('"' :: ("status".data ++ ('"' :: (':' :: (' ' :: (strLit (statusName t.status) ++ ("\n    ".data ++ ('\x7d' :: (rest))))))))))))))))))) := by
    rw [show (' ' :: (natToChars t.id ++ (',' :: ("\n      ".data ++ ('"' :: ("description".data ++ ('"' :: (':' :: (' ' :: (strLit t.description ++ (',' :: ("\n      ".data ++ ('"' :: ("status".data ++ ('"' :: (':' :: (' ' :: (strLit (statusName t.status) ++ ("\n    ".data ++ ('\x7d' :: (rest)))))))))))))))))))) : List Char) =
        [' '] ++ (natToChars t.id ++ (',' :: ("\n      ".data ++ ('"' :: ("description".data ++ ('"' :: (':' :: (' ' :: (strLit t.description ++ (',' :: ("\n      ".data ++ ('"' :: ("status".data ++ ('"' :: (':' :: (' ' :: (strLit (statusName t.status) ++ ("\n    ".data ++ ('\x7d' :: (rest)))))))))))))))))))) from rfl,
      parseVal_ws (by decide) (fuel + 2 + 1)]
    exact parseVal_num (fuel + 2) t.id _ (head_comma_not_digit _)
  refine parseFields_comma (fuel + 3) "id".data _ _ _ rest _ _
    (by decide) hval1 (skipWs_cons_of_not_ws (by decide) _) ?_
  rw [parseFields_ws (by decide) (fuel + 3)]
  exact h2

/-- Parsing one pretty-printed task object. -/
theorem parseVal_task (fuel : Nat) (t : Task) (rest : List Char) :
    parseVal (fuel + 4 + 1) (taskJsonChars t ++ rest) = some (taskJson t, rest) := by
  have hshape : taskJsonChars t ++ rest =
      '\x7b' :: ("\n      ".data ++ ('"' :: ("id".data ++ ('"' :: (':' :: (' ' :: (natToChars t.id ++ (',' :: ("\n      ".data ++ ('"' :: ("description".data ++ ('"' :: (':' :: (' ' :: (strLit t.description ++ (',' :: ("\n      ".data ++ ('"' :: ("status".data ++ ('"' :: (':' :: (' ' :: (strLit (statusName t.status) ++ ("\n    ".data ++ ('\x7d' :: (rest)))))))))))))))))))))))))) := by
    simp only [taskJsonChars, List.append_assoc]
    rfl
  rw [hshape]
  exact parseVal_obj (fuel + 4) _ _ rest _ (skipWs_run (by decide) (by decide) _)
    (parseFields_task fuel t rest)

/-- `parseElems` ignores leading whitespace. -/
theorem parseElems_ws {w : List Char} (hw : ∀ c ∈ w, isWs c = true) (fuel : Nat)
    (x : List Char) : parseElems fuel (w ++ x) = parseElems fuel x := by
  cases fuel with
  | zero => rfl
  | succ n => simp only [parseElems, parseVal_ws hw]

/-- Parsing the printed comma-separated sequence of task objects up to and
including the closing bracket. -/
theorem parseElems_tasks (ts : List Task) : ∀ (fuel : Nat) (t : Task) (rest : List Char),
    parseElems (fuel + 6 * ts.length + 6)
      (taskJsonChars t ++ ((ts.map (fun u => ",\n    ".data ++ taskJsonChars u)).flatten ++
        ("\n  ]".data ++ rest))) =
      some ((t :: ts).map taskJson, rest) := by
  induction ts with
  | nil =>
    intro fuel t rest
    simp only [List.length_nil, List.map_nil, List.flatten_nil, List.nil_append, List.map_cons]
    rw [show (fuel + 6 * 0 + 6 : Nat) = (fuel + 5) + 1 by omega]
    refine parseElems_last (fuel + 5) _ _ rest _ (parseVal_task fuel t _) ?_
    rw [show ("\n  ]".data ++ rest : List Char) = "\n  ".data ++ (']' :: rest) from rfl]
    exact skipWs_run (by decide) (by decide) rest
  | cons u us ih =>
    intro fuel t rest
    simp only [List.length_cons, List.map_cons, List.flatten_cons, List.append_assoc]
    rw [show (fuel + 6 * (us.length + 1) + 6 : Nat) = ((fuel + 5) + 6 * us.length + 6) + 1
      by omega]
    have hval : parseVal (fuel + 5 + 6 * us.length + 6)
        (taskJsonChars t ++ (",\n    ".data ++ (taskJsonChars u ++ ((us.map (fun u => ",\n    ".data ++ taskJsonChars u)).flatten ++ ("\n  ]".data ++ rest))))) =
        some (taskJson t, ",\n    ".data ++ (taskJsonChars u ++ ((us.map (fun u => ",\n    ".data ++ taskJsonChars u)).flatten ++ ("\n  ]".data ++ rest)))) := by
      rw [show (fuel + 5 + 6 * us.length + 6 : Nat) = (fuel + 6 * us.length + 6) + 4 + 1
        by omega]
      exact parseVal_task (fuel + 6 * us.length + 6) t _
    refine parseElems_comma (fuel + 5 + 6 * us.length + 6) _ _
      ("\n    ".data ++ (taskJsonChars u ++ ((us.map (fun u => ",\n    ".data ++ taskJsonChars u)).flatten ++ ("\n  ]".data ++ rest)))) rest _ _ hval ?_ ?_
    · rw [show (",\n    ".data ++ (taskJsonChars u ++ ((us.map (fun u => ",\n    ".data ++ taskJsonChars u)).flatten ++ ("\n  ]".data ++ rest))) : List Char) =
        ',' :: ("\n    ".data ++ (taskJsonChars u ++ ((us.map (fun u => ",\n    ".data ++ taskJsonChars u)).flatten ++ ("\n  ]".data ++ rest)))) from rfl]
      exact skipWs_cons_of_not_ws (by decide) _
    · rw [parseElems_ws (by decide) (fuel + 5 + 6 * us.length + 6)]
      exact ih (fuel + 5) u rest

/-- Parsing the printed task array. -/
theorem parseVal_tasksArray (fuel : Nat) (ts : List Task) (rest : List Char) :
    parseVal (fuel + 6 * ts.length + 1) (tasksArrayChars ts ++ rest) =
      some (Json.arr (ts.map taskJson), rest) := by
  cases ts with
  | nil =>
    simp only [List.length_nil, List.map_nil]
    rw [show (fuel + 6 * 0 + 1 : Nat) = fuel + 1 by omega]
    rw [show tasksArrayChars [] ++ rest = '[' :: (']' :: rest) from rfl]
    exact parseVal_arr_empty fuel _ rest (skipWs_cons_of_not_ws (by decide) _)
  | cons t us =>
    simp only [List.length_cons]
    rw [show (fuel + 6 * (us.length + 1) + 1 : Nat) = (fuel + 6 * us.length + 6) + 1 by omega]
    have hshape : tasksArrayChars (t :: us) ++ rest =
        '[' :: ("\n    ".data ++ (taskJsonChars t ++ ((us.map (fun u => ",\n    ".data ++ taskJsonChars u)).flatten ++ ("\n  ]".data ++ rest)))) := by
      simp only [tasksArrayChars, List.append_assoc]
      rfl
    rw [hshape]
    have hsplit : taskJsonChars t ++ ((us.map (fun u => ",\n    ".data ++ taskJsonChars u)).flatten ++ ("\n  ]".data ++ rest)) =
        '\x7b' :: ("\n      \"id\": ".data ++ (natToChars t.id ++ (",\n      \"description\": ".data ++ (strLit t.description ++ (",\n      \"status\": ".data ++ (strLit (statusName t.status) ++ ("\n    \x7d".data ++ ((us.map (fun u => ",\n    ".data ++ taskJsonChars u)).flatten ++ ("\n  ]".data ++ rest))))))))) := by
      simp only [taskJsonChars, List.append_assoc]
      rfl
    refine parseVal_arr (fuel + 6 * us.length + 6) _
      ("\n      \"id\": ".data ++ (natToChars t.id ++ (",\n      \"description\": ".data ++ (strLit t.description ++ (",\n      \"status\": ".data ++ (strLit (statusName t.status) ++ ("\n    \x7d".data ++ ((us.map (fun u => ",\n    ".data ++ taskJsonChars u)).flatten ++ ("\n  ]".data ++ rest))))))))) rest _ ?_ ?_
    · rw [hsplit]
      exact skipWs_run (by decide) (by decide) _
    · rw [← hsplit]
      exact parseElems_tasks us fuel t rest

/-- Parsing the whole pretty-printed document. -/
theorem parseVal_top (fuel : Nat) (l : TaskList) :
    parseVal (fuel + 6 * l.tasks.length + 3) (taskListJsonChars l) =
      some (Json.obj [("tasks", Json.arr (l.tasks.map taskJson))], []) := by
  have hshape : taskListJsonChars l =
      '\x7b' :: ("\n  ".data ++ ('"' :: ("tasks".data ++ ('"' :: (':' :: (' ' ::
        (tasksArrayChars l.tasks ++ ('\n' :: ('\x7d' :: ([] : List Char)))))))))) := by
    simp only [taskListJsonChars, List.append_assoc]
    rfl
  rw [hshape,
    show (fuel + 6 * l.tasks.length + 3 : Nat) = (fuel + 6 * l.tasks.length + 2) + 1 by omega]
  refine parseVal_obj (fuel + 6 * l.tasks.length + 2) _ _ [] _
    (skipWs_run (by decide) (by decide) _) ?_
  rw [show (fuel + 6 * l.tasks.length + 2 : Nat) = (fuel + 6 * l.tasks.length + 1) + 1 by omega]
  have hval : parseVal (fuel + 6 * l.tasks.length + 1)
      (' ' :: (tasksArrayChars l.tasks ++ ('\n' :: ('\x7d' :: ([] : List Char))))) =
      some (Json.arr (l.tasks.map taskJson), '\n' :: ('\x7d' :: ([] : List Char))) := by
    rw [show (' ' :: (tasksArrayChars l.tasks ++ ('\n' :: ('\x7d' :: ([] : List Char)))) :
        List Char) =
        [' '] ++ (tasksArrayChars l.tasks ++ ('\n' :: ('\x7d' :: []))) from rfl,
      parseVal_ws (by decide) (fuel + 6 * l.tasks.length + 1)]
    exact parseVal_tasksArray fuel l.tasks _
  exact parseFields_last (fuel + 6 * l.tasks.length + 1) "tasks".data _ _ [] _
    (by decide) hval (by decide)

/-- A printed task occupies at least six characters. -/
theorem taskJsonChars_length (t : Task) : 6 ≤ (taskJsonChars t).length := by
  unfold taskJsonChars
  rw [List.length_append, List.length_append, List.length_append, List.length_append,
    List.length_append, List.length_append]
  have h1 : (("\x7b\n      \"id\": ".data : List Char)).length = 14 := rfl
  omega

/-- Each separator-plus-task block occupies at least six characters. -/
theorem flatten_sep_length (us : List Task) :
    6 * us.length ≤ ((us.map (fun u => ",\n    ".data ++ taskJsonChars u)).flatten).length := by
  induction us with
  | nil => simp
  | cons u us ih =>
    rw [List.map_cons, List.flatten_cons, List.length_append, List.length_append,
      List.length_cons]
    have h1 : ((",\n    ".data : List Char)).length = 6 := rfl
    have h2 := taskJsonChars_length u
    omega

/-- The fuel supplied by `serde_from_str` covers the whole parse. -/
theorem taskListJsonChars_length (l : TaskList) :
    6 * l.tasks.length + 2 ≤ (taskListJsonChars l).length := by
  rcases l with ⟨ts⟩
  cases ts with
  | nil => decide
  | cons t us =>
    show 6 * (t :: us).length + 2 ≤
      ("\x7b\n  \"tasks\": ".data ++ ("[\n    ".data ++ taskJsonChars t ++
        (us.map (fun u => ",\n    ".data ++ taskJsonChars u)).flatten ++ "\n  ]".data) ++
        "\n\x7d".data).length
    rw [List.length_append, List.length_append, List.length_append, List.length_append,
      List.length_append, List.length_cons]
    have h1 : (("\x7b\n  \"tasks\": ".data : List Char)).length = 13 := rfl
    have h2 : (("[\n    ".data : List Char)).length = 6 := rfl
    have h3 : (("\n  ]".data : List Char)).length = 4 := rfl
    have h4 : (("\n\x7d".data : List Char)).length = 2 := rfl
    have h5 := taskJsonChars_length t
    have h6 := flatten_sep_length us
    omega

/-- Deserializing the JSON value printed for one task gives the task back. -/
theorem taskFromJson_taskJson (t : Task) (h : t.id < 4294967296) :
    taskFromJson (taskJson t) = some t := by
  simp +decide only [taskFromJson, taskJson, lookupField, if_true, if_false]
  rw [if_pos h]
  rcases t with ⟨id, d, st⟩
  cases st <;> rfl

/-- Deserializing the printed array elementwise gives the tasks back. -/
theorem tasksFromJson_map (ts : List Task) (h : ∀ t ∈ ts, t.id < 4294967296) :
    tasksFromJson (ts.map taskJson) = some ts := by
  induction ts with
  | nil => rfl
  | cons t us ih =>
    simp only [List.map_cons, tasksFromJson,
      taskFromJson_taskJson t (h t (List.mem_cons_self t us)),
      ih (fun u hu => h u (List.mem_cons_of_mem t hu))]

/-- Deserializing the printed top-level object gives the task list back. -/
theorem taskListFromJson_round (l : TaskList) (h : ∀ t ∈ l.tasks, t.id < 4294967296) :
    taskListFromJson (Json.obj [("tasks", Json.arr (l.tasks.map taskJson))]) = some l := by
  simp +decide only [taskListFromJson, lookupField, if_true,
    tasksFromJson_map l.tasks h, Option.map_some']

/-- `serde_json::from_str` inverts `serde_json::to_string_pretty` on any task
list whose ids fit in `u32`. -/
theorem serde_from_str_format (l : TaskList) (h : ∀ t ∈ l.tasks, t.id < 4294967296) :
    serde_from_str (JsonFormatter.format l) = some l := by
  unfold serde_from_str JsonFormatter.format
  rw [show (String.mk (taskListJsonChars l)).data = taskListJsonChars l from rfl]
  obtain ⟨f0, hf0⟩ : ∃ f0, (taskListJsonChars l).length + 1 = f0 + 6 * l.tasks.length + 3 := by
    have hlen := taskListJsonChars_length l
    exact ⟨(taskListJsonChars l).length + 1 - (6 * l.tasks.length + 3), by omega⟩
  rw [hf0, parseVal_top f0 l]
  show (if skipWs ([] : List Char) = [] then
      taskListFromJson (Json.obj [("tasks", Json.arr (l.tasks.map taskJson))]) else none) =
    some l
  rw [if_pos (show skipWs ([] : List Char) = [] from rfl)]
  exact taskListFromJson_round l h

/-- C1: for every `TaskList` (with ids in the `u32` range guaranteed by the
Rust types), exporting with the Json formatter and feeding the resulting
string through `import` reconstructs an equal `TaskList` in any receiving
list: same ids, same descriptions, same statuses, in the same order. -/
theorem json_export_import_round_trip (l0 l : TaskList)
    (h : ∀ t ∈ l.tasks, t.id < 4294967296) :
    l0.importStr (l.export_to_string JsonFormatter.format) = (Except.ok (), l) := by
  show l0.importStr (JsonFormatter.format l) = (Except.ok (), l)
  simp only [TaskList.importStr, serde_from_str_format l h]

/-- C1 witness: the spec's two-task example round-trips through Json export
and import into a fresh list. -/
theorem json_export_import_round_trip_witness :
    TaskList.importStr TaskList.new
      (TaskList.export_to_string
        { tasks := [⟨1, "Task 1", TaskStatus.NotStarted⟩, ⟨2, "Task 2", TaskStatus.Completed⟩] }
        JsonFormatter.format) =
      (Except.ok (),
        { tasks := [⟨1, "Task 1", TaskStatus.NotStarted⟩,
          ⟨2, "Task 2", TaskStatus.Completed⟩] }) :=
  json_export_import_round_trip TaskList.new
    { tasks := [⟨1, "Task 1", TaskStatus.NotStarted⟩, ⟨2, "Task 2", TaskStatus.Completed⟩] }
    (by decide)

end Todore
